import Mathlib

/-!
Verification development for the swap route planner / quote optimizer
(router use case of the sqs ingest service).

The definitions below are a shallow embedding of the Go source file holding
`routerUseCaseImpl` (GetOptimalQuote, handleCandidateRoutes,
filterDuplicatePoolIDRoutes, rankRoutesByDirectQuote, estimateDirectQuote,
GetCustomQuote, GetCachedCandidateRoutes, convertRankedToCandidateRoutes,
formatRankedRouteCacheKey).

External collaborators that are not part of the source slice
(mvc.RouterRepository, mvc.PoolsUsecase, the TTL cache `cache.Cache`,
the router search `Router.GetCandidateRoutes`, the evaluator
`estimateAndRankSingleRouteQuote`, the splitter `GetSplitQuote`,
`osmomath.OrderOfMagnitude`, `domain.GetURLPathFromContext`) are modelled
as an abstract environment `Env` of pure fallible functions, plus an
explicit `CacheState` for the two caches (modelled from the spec where
indicated).  Machine integers (uint64 pool ids, big-integer amounts)
are modelled as `Nat`; Go errors are an explicit error type; Go maps used
as sets are modelled as duplicate-free lists with membership semantics.
-/

namespace Osmosis

/-- route.CandidatePool: the directed use of a pool inside a route
(pool id plus chosen token-out denom). -/
structure CandidatePool where
  ID : Nat
  TokenOutDenom : String
deriving DecidableEq

/-- route.CandidateRoute: ordered sequence of candidate pools. -/
structure CandidateRoute where
  Pools : List CandidatePool
deriving DecidableEq

/-- route.CandidateRoutes: routes plus the set union of their pool ids
(`UniquePoolIDs` is a Go map used as a set; modelled as a list with
membership semantics, kept duplicate-free by `insertID`). -/
structure CandidateRoutes where
  Routes : List CandidateRoute
  UniquePoolIDs : List Nat
deriving DecidableEq

/-- domain.RoutablePool as consumed by the planner: only the pool id and the
current token-out denom are read by the code under verification. -/
structure RoutablePool where
  id : Nat
  tokenOutDenom : String
deriving DecidableEq

/-- route.RouteImpl: an ordered sequence of routable pools. -/
structure RouteImpl where
  Pools : List RoutablePool
deriving DecidableEq

/-- sdk.Coin: denom plus non-negative big-integer amount. -/
structure Coin where
  denom : String
  amount : Nat
deriving DecidableEq

/-- domain.Quote as consumed by GetOptimalQuote: amount out
(`GetAmountOut`) and the route list (`GetRoute`). -/
structure Quote where
  amountOut : Nat
  routes : List RouteImpl
deriving DecidableEq

/-- route.RouteWithOutAmount: a route annotated with its evaluated
amount out, as returned by the evaluator. -/
structure RouteWithOutAmount where
  impl : RouteImpl
  outAmount : Nat
deriving DecidableEq

/-- domain.PoolI as far as the code under verification is concerned:
pools are only handed from `GetAllPools` to the route search. -/
structure PoolI where
  id : Nat
deriving DecidableEq

/-- domain.TakerFeeMap: canonical denom pair to fee; only threaded through
to the evaluator by the code under verification. -/
structure TakerFeeMap where
  fees : List ((String × String) × Nat)
deriving DecidableEq

/-- The distinct error values produced by the embedded code.  Collaborator
errors are wrapped in `envError`; the remaining constructors correspond to
the `fmt.Errorf`/`errors.New` values created in the source. -/
inductive RouterError where
  | envError (msg : String)
  | noRankedRoutes
  | zeroOutput
  | noMatchingRoute (poolIDs : List Nat)
  | routeIndexOutOfBounds
  | cacheDisabled
deriving DecidableEq

/-- domain.RouterConfig: the configuration fields read by the embedded code. -/
structure RouterConfig where
  maxPoolsPerRoute : Nat
  maxRoutes : Nat
  maxSplitRoutes : Nat
  maxSplitIterations : Nat
  minOSMOLiquidity : Nat
  routeCacheEnabled : Bool
deriving DecidableEq

/-- Insert a pool id into a list-modelled set (Go `map[uint64]struct{}` key
insert): a no-op when the id is already present. -/
def insertID (poolID : Nat) (s : List Nat) : List Nat :=
  if poolID ∈ s then s else poolID :: s

/-- Insert every id of a list into a list-modelled set, left to right. -/
def insertIDs (ids : List Nat) (s : List Nat) : List Nat :=
  ids.foldl (fun acc i => insertID i acc) s

/-- The ordered pool ids of a ranked route. -/
def routeIDs (r : RouteImpl) : List Nat :=
  r.Pools.map RoutablePool.id

/-- The ordered pool ids of a candidate route. -/
def candidateRoutePoolIDs (r : CandidateRoute) : List Nat :=
  r.Pools.map CandidatePool.ID

/-- The zero value of route.CandidateRoutes. -/
def emptyCandidateRoutes : CandidateRoutes :=
  { Routes := [], UniquePoolIDs := [] }

/-- Lexicographic comparison of character lists (by code point). -/
def charListLe : List Char → List Char → Bool
  | [], _ => true
  | _ :: _, [] => false
  | a :: as, b :: bs =>
    if a.toNat < b.toNat then true
    else if b.toNat < a.toNat then false
    else charListLe as bs

/-- Modelled from the spec: the candidate-route repository
(mvc.RouterRepository, Redis-backed, not in the source slice) is keyed by
the canonicalized — lexicographically sorted — denom pair. -/
def canonicalPair (denomA denomB : String) : String × String :=
  if charListLe denomA.data denomB.data then (denomA, denomB) else (denomB, denomA)

/-- The observable state of the two caches: the persistent candidate-route
repository and the in-memory ranked-route TTL cache (key, value, TTL). -/
structure CacheState where
  repoRoutes : List ((String × String) × CandidateRoutes)
  rankedCache : List (String × CandidateRoutes × Nat)
deriving DecidableEq

/-- First-match lookup in the repository association list. -/
def repoFind (key : String × String) :
    List ((String × String) × CandidateRoutes) → Option CandidateRoutes
  | [] => none
  | (k, v) :: rest => if k = key then some v else repoFind key rest

/-- Modelled from the spec: RouterRepository.GetRoutes returns the routes
stored under the canonicalized pair, or the zero value when absent. -/
def repoGetRoutes (st : CacheState) (tokenInDenom tokenOutDenom : String) :
    CandidateRoutes :=
  match repoFind (canonicalPair tokenInDenom tokenOutDenom) st.repoRoutes with
  | some r => r
  | none => emptyCandidateRoutes

/-- Modelled from the spec: RouterRepository.SetRoutes stores the routes
under the canonicalized pair (newest entry shadows older ones). -/
def repoSetRoutes (st : CacheState) (tokenInDenom tokenOutDenom : String)
    (r : CandidateRoutes) : CacheState :=
  { st with repoRoutes := (canonicalPair tokenInDenom tokenOutDenom, r) :: st.repoRoutes }

/-- First-match lookup in the ranked-route cache. -/
def cacheFind (key : String) :
    List (String × CandidateRoutes × Nat) → Option CandidateRoutes
  | [] => none
  | (k, v, _) :: rest => if k = key then some v else cacheFind key rest

/-- Modelled from the spec: the in-memory TTL cache `Get` (time is not
modelled; an entry is visible while present). -/
def cacheGet (st : CacheState) (key : String) : Option CandidateRoutes :=
  cacheFind key st.rankedCache

/-- Modelled from the spec: the in-memory TTL cache `Set` records the value
together with its TTL (newest entry shadows older ones). -/
def cacheSet (st : CacheState) (key : String) (v : CandidateRoutes)
    (ttl : Nat) : CacheState :=
  { st with rankedCache := (key, v, ttl) :: st.rankedCache }

/-- Go time.Minute in nanoseconds (time.Duration units). -/
def timeMinute : Nat := 60 * 1000000000

/-- The abstract environment of external collaborators.  Each field stands
for one collaborator call made by the code under verification; fallible
calls return `Except String` and their errors are wrapped in
`RouterError.envError` at the call sites. -/
structure Env where
  GetURLPathFromContext : Except String String
  GetAllPools : Except String (List PoolI)
  GetCandidateRoutes : List PoolI → String → String → Except String CandidateRoutes
  GetAllTakerFees : Except String TakerFeeMap
  GetRoutesFromCandidates :
    CandidateRoutes → TakerFeeMap → String → String → Except String (List RouteImpl)
  estimateAndRankSingleRouteQuote :
    List RouteImpl → Coin → Except String (Quote × List RouteWithOutAmount)
  GetSplitQuote : List RouteImpl → Coin → Except String Quote

/-- Fuel-based floor of the base-10 logarithm (`fuel ≥ n` suffices since
`n / 10 < n` for `n ≥ 10`). -/
def log10Aux : Nat → Nat → Nat
  | 0, _ => 0
  | fuel + 1, n => if n < 10 then 0 else 1 + log10Aux fuel (n / 10)

/-- Modelled from the spec: osmomath.OrderOfMagnitude (not in the source
slice) is the floor of the base-10 logarithm of the amount. -/
def orderOfMagnitude (amount : Nat) : Nat :=
  log10Aux amount amount

/-- formatRankedRouteCacheKey: "tokenInDenom/tokenOutDenom/omag". -/
def formatRankedRouteCacheKey (tokenInDenom tokenOutDenom : String)
    (tokenInOrderOfMagnitude : Nat) : String :=
  tokenInDenom ++ "/" ++ tokenOutDenom ++ "/" ++ toString tokenInOrderOfMagnitude

/-- The loop body of filterDuplicatePoolIDRoutes: `combinedPoolIDs` is the
set of pool ids of all previously accepted routes.  A route is skipped as
soon as one of its pool ids is found in the combined set; only when a route
is accepted are its pool ids merged into the combined set. -/
def filterDuplicatePoolIDRoutesAux : List Nat → List RouteImpl → List RouteImpl
  | _, [] => []
  | combinedPoolIDs, r :: rs =>
    if r.Pools.any (fun p => decide (p.id ∈ combinedPoolIDs)) then
      filterDuplicatePoolIDRoutesAux combinedPoolIDs rs
    else
      r :: filterDuplicatePoolIDRoutesAux (insertIDs (routeIDs r) combinedPoolIDs) rs

/-- filterDuplicatePoolIDRoutes: drop every route sharing a pool id with an
earlier accepted route. -/
def filterDuplicatePoolIDRoutes (rankedRoutes : List RouteImpl) : List RouteImpl :=
  filterDuplicatePoolIDRoutesAux [] rankedRoutes

/-- The route-overlap filter as the spec words it (kept separate from the
source translation so the two can be compared): iterate in ranked order and
accept a route iff none of its pool ids occurs in an earlier accepted
route; the first argument accumulates the accepted routes. -/
def overlapFilterSpecAux : List RouteImpl → List RouteImpl → List RouteImpl
  | _, [] => []
  | accepted, r :: rs =>
    if ∀ x ∈ routeIDs r, ∀ s ∈ accepted, x ∉ routeIDs s then
      r :: overlapFilterSpecAux (accepted ++ [r]) rs
    else
      overlapFilterSpecAux accepted rs

/-- The spec-worded route-overlap filter, starting from no accepted routes. -/
def overlapFilterSpec (routes : List RouteImpl) : List RouteImpl :=
  overlapFilterSpecAux [] routes

/-- convertRankedToCandidateRoutes: shed the bound state of each ranked
route, keeping the ordered (pool id, token-out denom) pairs, and collect
the union of pool ids. -/
def convertRankedToCandidateRoutes (rankedRoutes : List RouteImpl) : CandidateRoutes :=
  { Routes := rankedRoutes.map (fun rankedRoute =>
      { Pools := rankedRoute.Pools.map (fun p =>
          { ID := p.id, TokenOutDenom := p.tokenOutDenom }) }),
    UniquePoolIDs := rankedRoutes.foldl (fun acc r => insertIDs (routeIDs r) acc) [] }

/-- The index-overwrite loop of estimateDirectQuote:
`routes[i] = routesSortedByAmtOut[i].RouteImpl` for `i < numRoutes`.
(Go panics when an index is out of range; the model leaves the list
unchanged at such an index, a case unreachable in the source because
`numRoutes` never exceeds either length there.) -/
def writeTopRoutes (routes : List RouteImpl) (sorted : List RouteWithOutAmount)
    (numRoutes : Nat) : List RouteImpl :=
  (List.range numRoutes).foldl
    (fun rs i =>
      match sorted[i]? with
      | some r => rs.set i r.impl
      | none => rs)
    routes

/-- estimateDirectQuote: evaluate and rank the routes, then trim to the
split budget.  With `maxSplitRoutes = 0` only `routes[0]` is overwritten
with the top ranked route; otherwise the list is cut to `maxSplitRoutes`
when more ranked routes are available, and the kept slots are overwritten
with the top ranked routes in order. -/
def estimateDirectQuote (cfg : RouterConfig) (env : Env)
    (routes : List RouteImpl) (tokenIn : Coin) :
    Except RouterError (Quote × List RouteImpl) :=
  match env.estimateAndRankSingleRouteQuote routes tokenIn with
  | .error s => .error (.envError s)
  | .ok (topQuote, routesSortedByAmtOut) =>
    let numRoutes := routesSortedByAmtOut.length
    let trimmed :=
      if cfg.maxSplitRoutes = 0 ∧ 0 < numRoutes then (routes, 1)
      else if cfg.maxSplitRoutes < routesSortedByAmtOut.length then
        (routes.take cfg.maxSplitRoutes, cfg.maxSplitRoutes)
      else (routes, numRoutes)
    .ok (topQuote, writeTopRoutes trimmed.1 routesSortedByAmtOut trimmed.2)

/-- rankRoutesByDirectQuote: read taker fees, bind the candidate routes to
live pools, and estimate the direct quote per route. -/
def rankRoutesByDirectQuote (cfg : RouterConfig) (env : Env)
    (candidateRoutes : CandidateRoutes) (tokenIn : Coin) (tokenOutDenom : String) :
    Except RouterError (Quote × List RouteImpl) :=
  match env.GetAllTakerFees with
  | .error s => .error (.envError s)
  | .ok takerFees =>
    match env.GetRoutesFromCandidates candidateRoutes takerFees tokenIn.denom tokenOutDenom with
    | .error s => .error (.envError s)
    | .ok routes => estimateDirectQuote cfg env routes tokenIn

/-- handleCandidateRoutes: read the candidate-route repository when the
route cache is enabled; when the read yields no routes (or the cache is
disabled) recompute from the pool snapshot and persist the result iff it is
non-empty and the cache is enabled.  Returns the routes together with the
cache state after the call. -/
def handleCandidateRoutes (cfg : RouterConfig) (env : Env) (st : CacheState)
    (tokenInDenom tokenOutDenom : String) :
    (Except RouterError CandidateRoutes) × CacheState :=
  let candidateRoutes :=
    if cfg.routeCacheEnabled then repoGetRoutes st tokenInDenom tokenOutDenom
    else emptyCandidateRoutes
  match env.GetURLPathFromContext with
  | .error s => (.error (.envError s), st)
  | .ok _ =>
    if candidateRoutes.Routes.length = 0 then
      match env.GetAllPools with
      | .error s => (.error (.envError s), st)
      | .ok allPools =>
        match env.GetCandidateRoutes allPools tokenInDenom tokenOutDenom with
        | .error s => (.error (.envError s), st)
        | .ok computed =>
          if 0 < computed.Routes.length ∧ cfg.routeCacheEnabled then
            (.ok computed, repoSetRoutes st tokenInDenom tokenOutDenom computed)
          else
            (.ok computed, st)
    else
      (.ok candidateRoutes, st)

/-- GetCachedCandidateRoutes: errors out when the route cache is disabled;
otherwise a pass-through read of the repository. -/
def GetCachedCandidateRoutes (cfg : RouterConfig) (st : CacheState)
    (tokenInDenom tokenOutDenom : String) :
    (Except RouterError CandidateRoutes) × CacheState :=
  if ¬cfg.routeCacheEnabled then (.error .cacheDisabled, st)
  else (.ok (repoGetRoutes st tokenInDenom tokenOutDenom), st)

/-- The tail of GetOptimalQuote shared by the cache-hit and cache-miss
paths: return the single quote directly when exactly one ranked route is
left, otherwise compare the split quote with the top single-route quote
and reject a zero final amount out. -/
def finishQuote (env : Env) (st : CacheState) (topSingleRouteQuote : Quote)
    (rankedRoutes : List RouteImpl) (tokenIn : Coin) :
    (Except RouterError Quote) × CacheState :=
  if rankedRoutes.length = 1 then (.ok topSingleRouteQuote, st)
  else
    match env.GetSplitQuote rankedRoutes tokenIn with
    | .error s => (.error (.envError s), st)
    | .ok topSplitQuote =>
      let finalQuote :=
        if topSingleRouteQuote.amountOut < topSplitQuote.amountOut then topSplitQuote
        else topSingleRouteQuote
      if finalQuote.amountOut = 0 then (.error .zeroOutput, st)
      else (.ok finalQuote, st)

/-- GetOptimalQuote: look up the ranked-route cache under
(tokenIn.denom, tokenOutDenom, order of magnitude of tokenIn.amount).
On a hit, re-evaluate the cached candidate routes.  On a miss, compute
candidate routes via handleCandidateRoutes, rank them, overlap-filter, and
when the filtered list is non-empty write its candidate form to the
ranked-route cache with a 5-minute TTL.  Finish via `finishQuote`. -/
def GetOptimalQuote (cfg : RouterConfig) (env : Env) (st : CacheState)
    (tokenIn : Coin) (tokenOutDenom : String) :
    (Except RouterError Quote) × CacheState :=
  let tokenInOrderOfMagnitude := orderOfMagnitude tokenIn.amount
  let key := formatRankedRouteCacheKey tokenIn.denom tokenOutDenom tokenInOrderOfMagnitude
  match env.GetURLPathFromContext with
  | .error s => (.error (.envError s), st)
  | .ok _ =>
    match cacheGet st key with
    | some rankedCandidateRoutes =>
      match rankRoutesByDirectQuote cfg env rankedCandidateRoutes tokenIn tokenOutDenom with
      | .error e => (.error e, st)
      | .ok (topSingleRouteQuote, rankedRoutes) =>
        finishQuote env st topSingleRouteQuote rankedRoutes tokenIn
    | none =>
      match handleCandidateRoutes cfg env st tokenIn.denom tokenOutDenom with
      | (.error e, st') => (.error e, st')
      | (.ok candidateRoutes, st') =>
        match rankRoutesByDirectQuote cfg env candidateRoutes tokenIn tokenOutDenom with
        | .error e => (.error e, st')
        | .ok (topSingleRouteQuote, rankedRoutes) =>
          if rankedRoutes.length = 0 then (.error .noRankedRoutes, st')
          else
            let filtered := filterDuplicatePoolIDRoutes rankedRoutes
            let st2 :=
              if 0 < filtered.length then
                cacheSet st' key (convertRankedToCandidateRoutes filtered) (5 * timeMinute)
              else st'
            finishQuote env st2 topSingleRouteQuote filtered tokenIn

/-- The per-route matching loop of GetCustomQuote: `routeIndex` is set only
when the loop reaches the last pool with every id equal, so an empty pool
list never matches. -/
def poolIDsMatch : List RoutablePool → List Nat → Bool
  | [p], [d] => p.id == d
  | p :: ps, d :: ds => p.id == d && poolIDsMatch ps ds
  | _, _ => false

/-- The route-scanning loop of GetCustomQuote: the first route whose pool
count equals the requested count and whose ordered pool ids all match. -/
def findRouteIndexAux (poolIDs : List Nat) : List RouteImpl → Nat → Option Nat
  | [], _ => none
  | r :: rs, idx =>
    if r.Pools.length == poolIDs.length && poolIDsMatch r.Pools poolIDs then some idx
    else findRouteIndexAux poolIDs rs (idx + 1)

/-- GetCustomQuote: compute candidate routes, bind them, select the first
route whose ordered pool-id sequence equals `poolIDs`, and evaluate it;
fail with noMatchingRoute when no route matches. -/
def GetCustomQuote (cfg : RouterConfig) (env : Env) (st : CacheState)
    (tokenIn : Coin) (tokenOutDenom : String) (poolIDs : List Nat) :
    (Except RouterError Quote) × CacheState :=
  match handleCandidateRoutes cfg env st tokenIn.denom tokenOutDenom with
  | (.error e, st') => (.error e, st')
  | (.ok candidateRoutes, st') =>
    match env.GetAllTakerFees with
    | .error s => (.error (.envError s), st')
    | .ok takerFees =>
      match env.GetRoutesFromCandidates candidateRoutes takerFees tokenIn.denom tokenOutDenom with
      | .error s => (.error (.envError s), st')
      | .ok routes =>
        match findRouteIndexAux poolIDs routes 0 with
        | none => (.error (.noMatchingRoute poolIDs), st')
        | some routeIndex =>
          match routes[routeIndex]? with
          | none => (.error .routeIndexOutOfBounds, st')
          | some foundRoute =>
            match env.estimateAndRankSingleRouteQuote [foundRoute] tokenIn with
            | .error s => (.error (.envError s), st')
            | .ok (quote, _) => (.ok quote, st')

/-! Concrete values used by counterexamples and witnesses. -/

/-- A one-hop routable pool with id 1. -/
def p1 : RoutablePool := ⟨1, "uion"⟩

/-- A one-hop routable pool with id 2. -/
def p2 : RoutablePool := ⟨2, "uion"⟩

/-- A single-pool route through pool 1. -/
def r1 : RouteImpl := ⟨[p1]⟩

/-- A single-pool route through pool 2. -/
def r2 : RouteImpl := ⟨[p2]⟩

/-- A candidate-route set holding the single route through pool 1. -/
def cr1 : CandidateRoutes := ⟨[⟨[⟨1, "uion"⟩]⟩], [1]⟩

/-- The empty cache state. -/
def st0 : CacheState := ⟨[], []⟩

/-- A token in: 100uosmo. -/
def tIn : Coin := ⟨"uosmo", 100⟩

/-- A collaborator environment whose evaluator values every route at 0:
one candidate route through pool 1, quotes of amount out 0. -/
def cexEnv : Env :=
  { GetURLPathFromContext := .ok "/quote"
    GetAllPools := .ok []
    GetCandidateRoutes := fun _ _ _ => .ok cr1
    GetAllTakerFees := .ok ⟨[]⟩
    GetRoutesFromCandidates := fun _ _ _ _ => .ok [r1]
    estimateAndRankSingleRouteQuote := fun rs _ => .ok (⟨0, rs⟩, rs.map (fun r => ⟨r, 0⟩))
    GetSplitQuote := fun _ _ => .ok ⟨0, []⟩ }

/-- A collaborator environment with two disjoint routes: the top single
route yields 5, the split yields 7. -/
def cexEnv2 : Env :=
  { GetURLPathFromContext := .ok "/quote"
    GetAllPools := .ok []
    GetCandidateRoutes := fun _ _ _ => .ok cr1
    GetAllTakerFees := .ok ⟨[]⟩
    GetRoutesFromCandidates := fun _ _ _ _ => .ok [r1, r2]
    estimateAndRankSingleRouteQuote := fun _ _ => .ok (⟨5, [r1]⟩, [⟨r1, 5⟩, ⟨r2, 3⟩])
    GetSplitQuote := fun rs _ => .ok ⟨7, rs⟩ }

/-- A configuration with the route cache enabled and a split budget of 2. -/
def cfgE : RouterConfig := ⟨4, 4, 2, 10, 0, true⟩

/-- The same configuration with the route cache disabled. -/
def cfgD : RouterConfig := ⟨4, 4, 2, 10, 0, false⟩

/-- A cache state whose repository is pre-populated for (uosmo, uion). -/
def stPre : CacheState := ⟨[(("uion", "uosmo"), cr1)], []⟩

/-! Helper lemmas about list-modelled sets. -/

theorem mem_insertID {x poolID : Nat} {s : List Nat} :
    x ∈ insertID poolID s ↔ x = poolID ∨ x ∈ s := by
  unfold insertID
  split
  · rename_i h
    exact ⟨Or.inr, fun hx => hx.elim (fun e => e ▸ h) id⟩
  · simp [List.mem_cons]

theorem mem_insertIDs {x : Nat} {ids s : List Nat} :
    x ∈ insertIDs ids s ↔ x ∈ ids ∨ x ∈ s := by
  induction ids generalizing s with
  | nil => simp [insertIDs]
  | cons i ids ih =>
    show x ∈ insertIDs ids (insertID i s) ↔ _
    rw [ih, mem_insertID]
    simp [List.mem_cons]
    tauto

theorem mem_routeIDs {x : Nat} {r : RouteImpl} :
    x ∈ routeIDs r ↔ ∃ p ∈ r.Pools, p.id = x := by
  simp [routeIDs]

/-! Helper lemmas about the overlap filter. -/

theorem filter_cond_false {c : List Nat} {r : RouteImpl} :
    (r.Pools.any fun p => decide (p.id ∈ c)) = false ↔ ∀ x ∈ routeIDs r, x ∉ c := by
  rw [← Bool.not_eq_true, List.any_eq_true]
  simp [routeIDs]

theorem fdprAux_sublist (c : List Nat) (rs : List RouteImpl) :
    (filterDuplicatePoolIDRoutesAux c rs).Sublist rs := by
  induction rs generalizing c with
  | nil => simp [filterDuplicatePoolIDRoutesAux]
  | cons r rs ih =>
    unfold filterDuplicatePoolIDRoutesAux
    split
    · exact (ih c).cons r
    · exact (ih _).cons₂ r

theorem fdprAux_mem {c : List Nat} {rs : List RouteImpl} {s : RouteImpl}
    (hs : s ∈ filterDuplicatePoolIDRoutesAux c rs) :
    ∀ x ∈ routeIDs s, x ∉ c := by
  induction rs generalizing c with
  | nil => simp [filterDuplicatePoolIDRoutesAux] at hs
  | cons r rs ih =>
    unfold filterDuplicatePoolIDRoutesAux at hs
    split at hs
    · exact ih hs
    · rename_i hcond
      rcases List.mem_cons.mp hs with h | h
      · subst h
        exact filter_cond_false.mp (Bool.eq_false_iff.mpr (fun ht => by rw [ht] at hcond; exact hcond rfl))
      · intro x hx hxc
        exact ih h x hx (mem_insertIDs.mpr (Or.inr hxc))

theorem fdprAux_pairwise (c : List Nat) (rs : List RouteImpl) :
    List.Pairwise (fun a b => ∀ x ∈ routeIDs a, x ∉ routeIDs b)
      (filterDuplicatePoolIDRoutesAux c rs) := by
  induction rs generalizing c with
  | nil => simp [filterDuplicatePoolIDRoutesAux]
  | cons r rs ih =>
    unfold filterDuplicatePoolIDRoutesAux
    split
    · exact ih c
    · refine List.Pairwise.cons ?_ (ih _)
      intro b hb x hxr hxb
      have hbc := fdprAux_mem hb x hxb
      exact hbc (mem_insertIDs.mpr (Or.inl hxr))

theorem fdprAux_eq_spec {c : List Nat} {accepted : List RouteImpl}
    (hinv : ∀ x, x ∈ c ↔ ∃ s ∈ accepted, x ∈ routeIDs s) :
    ∀ rs, filterDuplicatePoolIDRoutesAux c rs = overlapFilterSpecAux accepted rs := by
  intro rs
  induction rs generalizing c accepted with
  | nil => simp [filterDuplicatePoolIDRoutesAux, overlapFilterSpecAux]
  | cons r rs ih =>
    unfold filterDuplicatePoolIDRoutesAux overlapFilterSpecAux
    have hcond : ((r.Pools.any fun p => decide (p.id ∈ c)) = false) ↔
        (∀ x ∈ routeIDs r, ∀ s ∈ accepted, x ∉ routeIDs s) := by
      rw [filter_cond_false]
      constructor
      · intro h x hx s hsa hxs
        exact h x hx ((hinv x).mpr ⟨s, hsa, hxs⟩)
      · intro h x hx hxc
        obtain ⟨s, hsa, hxs⟩ := (hinv x).mp hxc
        exact h x hx s hsa hxs
    by_cases hacc : ∀ x ∈ routeIDs r, ∀ s ∈ accepted, x ∉ routeIDs s
    · rw [if_pos hacc, if_neg (by rw [hcond.mpr hacc]; exact Bool.false_ne_true)]
      congr 1
      apply ih
      intro x
      rw [mem_insertIDs, hinv x]
      constructor
      · rintro (hx | ⟨s, hsa, hxs⟩)
        · exact ⟨r, by simp, hx⟩
        · exact ⟨s, by simp [hsa], hxs⟩
      · rintro ⟨s, hsa, hxs⟩
        rcases List.mem_append.mp hsa with h | h
        · exact Or.inr ⟨s, h, hxs⟩
        · simp only [List.mem_singleton] at h
          subst h
          exact Or.inl hxs
    · rw [if_neg hacc, if_pos ?_]
      · exact ih hinv
      · rcases Bool.eq_false_or_eq_true (r.Pools.any fun p => decide (p.id ∈ c)) with h | h
        · exact h
        · exact absurd (hcond.mp h) hacc

/-- C3: filterDuplicatePoolIDRoutes accepts a route iff none of its pool
ids occurs in an earlier accepted route: the output is a subsequence of the
input, any two distinct output routes have disjoint pool-id sets, and the
function coincides with the spec-worded filter (which tracks only accepted
routes — so intra-route duplicates never disqualify a route and the ids of
a rejected route are never recorded). -/
theorem filterDuplicatePoolIDRoutes_correct (routes : List RouteImpl) :
    (filterDuplicatePoolIDRoutes routes).Sublist routes
    ∧ List.Pairwise (fun a b => ∀ x ∈ routeIDs a, x ∉ routeIDs b)
        (filterDuplicatePoolIDRoutes routes)
    ∧ filterDuplicatePoolIDRoutes routes = overlapFilterSpec routes := by
  refine ⟨fdprAux_sublist [] routes, fdprAux_pairwise [] routes, ?_⟩
  exact fdprAux_eq_spec (by simp) routes

/-! Helper lemmas about convertRankedToCandidateRoutes. -/

theorem convert_route_ids (r : RouteImpl) :
    candidateRoutePoolIDs
      ⟨r.Pools.map (fun p => ⟨p.id, p.tokenOutDenom⟩)⟩ = routeIDs r := by
  simp [candidateRoutePoolIDs, routeIDs, List.map_map]

theorem mem_foldl_insertIDs {x : Nat} (rs : List RouteImpl) (init : List Nat) :
    x ∈ rs.foldl (fun acc r => insertIDs (routeIDs r) acc) init ↔
      (∃ r ∈ rs, x ∈ routeIDs r) ∨ x ∈ init := by
  induction rs generalizing init with
  | nil => simp
  | cons r rs ih =>
    simp only [List.foldl_cons]
    rw [ih, mem_insertIDs]
    simp only [List.mem_cons]
    constructor
    · rintro (⟨s, hs, hxs⟩ | hx | hx)
      · exact Or.inl ⟨s, Or.inr hs, hxs⟩
      · exact Or.inl ⟨r, Or.inl rfl, hx⟩
      · exact Or.inr hx
    · rintro (⟨s, hs | hs, hxs⟩ | hx)
      · exact Or.inr (Or.inl (hs ▸ hxs))
      · exact Or.inl ⟨s, hs, hxs⟩
      · exact Or.inr (Or.inr hx)

/-- C9: convertRankedToCandidateRoutes preserves per-route structure — the
i-th output candidate route carries the same ordered (pool id, token-out
denom) sequence as the i-th input route — and its UniquePoolIDs holds
exactly the union of pool ids across all input routes. -/
theorem convertRankedToCandidateRoutes_preserves (rankedRoutes : List RouteImpl) :
    (convertRankedToCandidateRoutes rankedRoutes).Routes.map
        (fun r => r.Pools.map (fun p => (p.ID, p.TokenOutDenom)))
      = rankedRoutes.map (fun r => r.Pools.map (fun p => (p.id, p.tokenOutDenom)))
    ∧ ∀ x, x ∈ (convertRankedToCandidateRoutes rankedRoutes).UniquePoolIDs ↔
        ∃ r ∈ rankedRoutes, ∃ p ∈ r.Pools, p.id = x := by
  constructor
  · simp [convertRankedToCandidateRoutes, List.map_map]
  · intro x
    show x ∈ rankedRoutes.foldl (fun acc r => insertIDs (routeIDs r) acc) [] ↔ _
    rw [mem_foldl_insertIDs]
    simp [mem_routeIDs]

/-- Pairwise pool-id disjointness of the filtered routes survives the
conversion to candidate routes. -/
theorem convert_filter_pairwise (rs : List RouteImpl) :
    List.Pairwise (fun a b => ∀ x ∈ candidateRoutePoolIDs a, x ∉ candidateRoutePoolIDs b)
      (convertRankedToCandidateRoutes (filterDuplicatePoolIDRoutes rs)).Routes := by
  show List.Pairwise _ ((filterDuplicatePoolIDRoutes rs).map _)
  rw [List.pairwise_map]
  refine (fdprAux_pairwise [] rs).imp ?_
  intro a b hab
  rw [convert_route_ids a, convert_route_ids b]
  exact hab

/-! Helper lemmas about state framing. -/

theorem cacheSet_repoRoutes (st : CacheState) (k : String) (v : CandidateRoutes) (ttl : Nat) :
    (cacheSet st k v ttl).repoRoutes = st.repoRoutes := rfl

theorem repoSetRoutes_rankedCache (st : CacheState) (i o : String) (r : CandidateRoutes) :
    (repoSetRoutes st i o r).rankedCache = st.rankedCache := rfl

theorem finishQuote_state (env : Env) (st : CacheState) (q : Quote)
    (rs : List RouteImpl) (t : Coin) : (finishQuote env st q rs t).2 = st := by
  unfold finishQuote
  repeat' (first | rfl | split | dsimp only)

theorem handleCandidateRoutes_rankedCache (cfg : RouterConfig) (env : Env)
    (st : CacheState) (i o : String) :
    ((handleCandidateRoutes cfg env st i o).2).rankedCache = st.rankedCache := by
  unfold handleCandidateRoutes
  repeat' (first | rfl | split | dsimp only)

theorem handleCandidateRoutes_disabled_frame (cfg : RouterConfig) (env : Env)
    (st : CacheState) (i o : String) (hdis : cfg.routeCacheEnabled = false) :
    (handleCandidateRoutes cfg env st i o).2 = st := by
  unfold handleCandidateRoutes
  simp only [hdis, Bool.false_eq_true, if_false, and_false, emptyCandidateRoutes]
  repeat' (first | rfl | split)

/-! Helper lemmas about GetOptimalQuote's cache-miss path. -/

theorem GetOptimalQuote_miss_eq (cfg : RouterConfig) (env : Env) (st : CacheState)
    (tokenIn : Coin) (tokenOutDenom : String) (u : String) (cand : CandidateRoutes)
    (st' : CacheState) (single : Quote) (ranked : List RouteImpl)
    (hurl : env.GetURLPathFromContext = .ok u)
    (hmiss : cacheGet st (formatRankedRouteCacheKey tokenIn.denom tokenOutDenom
      (orderOfMagnitude tokenIn.amount)) = none)
    (hhandle : handleCandidateRoutes cfg env st tokenIn.denom tokenOutDenom = (.ok cand, st'))
    (hrank : rankRoutesByDirectQuote cfg env cand tokenIn tokenOutDenom = .ok (single, ranked))
    (hne : ranked ≠ []) :
    GetOptimalQuote cfg env st tokenIn tokenOutDenom =
      finishQuote env
        (if 0 < (filterDuplicatePoolIDRoutes ranked).length then
          cacheSet st'
            (formatRankedRouteCacheKey tokenIn.denom tokenOutDenom
              (orderOfMagnitude tokenIn.amount))
            (convertRankedToCandidateRoutes (filterDuplicatePoolIDRoutes ranked))
            (5 * timeMinute)
         else st')
        single (filterDuplicatePoolIDRoutes ranked) tokenIn := by
  unfold GetOptimalQuote
  rw [hurl]
  dsimp only
  rw [hmiss, hhandle]
  dsimp only
  rw [hrank]
  dsimp only
  rw [if_neg (by simp [hne])]

theorem finishQuote_single (env : Env) (st : CacheState) (q : Quote)
    (rs : List RouteImpl) (t : Coin) (h : rs.length = 1) :
    finishQuote env st q rs t = (.ok q, st) := by
  unfold finishQuote
  rw [if_pos h]

theorem finishQuote_multi (env : Env) (st : CacheState) (q sp : Quote)
    (rs : List RouteImpl) (t : Coin) (h : rs.length ≠ 1)
    (hsplit : env.GetSplitQuote rs t = .ok sp)
    (hpos : ¬(if q.amountOut < sp.amountOut then sp else q).amountOut = 0) :
    finishQuote env st q rs t = (.ok (if q.amountOut < sp.amountOut then sp else q), st) := by
  unfold finishQuote
  rw [if_neg h, hsplit]
  dsimp only
  rw [if_neg hpos]

/-- C1 counterexample: with one surviving ranked route whose evaluated
quote has amount out 0, GetOptimalQuote returns the quote successfully —
the zero-output check is skipped by the single-route early return. -/
theorem GetOptimalQuote_zero_single_route_cex :
    (GetOptimalQuote cfgE cexEnv st0 tIn "uion").1 = .ok { amountOut := 0, routes := [r1] }
    ∧ ({ amountOut := 0, routes := [r1] } : Quote).amountOut = 0 :=
  ⟨rfl, rfl⟩

/-- C1 (amended): on a cache miss, when exactly one ranked route survives
the overlap filter its quote is returned directly with no zero-output
check; in every other successful case the returned quote has
amount out > 0 (a zero final amount out fails with ZeroOutput instead). -/
theorem GetOptimalQuote_zeroOutput_guard_amended (cfg : RouterConfig) (env : Env)
    (st : CacheState) (tokenIn : Coin) (tokenOutDenom : String) (u : String)
    (cand : CandidateRoutes) (st' : CacheState) (single : Quote) (ranked : List RouteImpl)
    (hurl : env.GetURLPathFromContext = .ok u)
    (hmiss : cacheGet st (formatRankedRouteCacheKey tokenIn.denom tokenOutDenom
      (orderOfMagnitude tokenIn.amount)) = none)
    (hhandle : handleCandidateRoutes cfg env st tokenIn.denom tokenOutDenom = (.ok cand, st'))
    (hrank : rankRoutesByDirectQuote cfg env cand tokenIn tokenOutDenom = .ok (single, ranked))
    (hne : ranked ≠ []) :
    ((filterDuplicatePoolIDRoutes ranked).length = 1 →
      (GetOptimalQuote cfg env st tokenIn tokenOutDenom).1 = .ok single)
    ∧ ((filterDuplicatePoolIDRoutes ranked).length ≠ 1 →
      ∀ q, (GetOptimalQuote cfg env st tokenIn tokenOutDenom).1 = .ok q →
        0 < q.amountOut) := by
  rw [GetOptimalQuote_miss_eq cfg env st tokenIn tokenOutDenom u cand st' single ranked
    hurl hmiss hhandle hrank hne]
  constructor
  · intro h1
    rw [finishQuote_single _ _ _ _ _ h1]
  · intro hne1 q hq
    unfold finishQuote at hq
    rw [if_neg hne1] at hq
    cases hsp : env.GetSplitQuote (filterDuplicatePoolIDRoutes ranked) tokenIn with
    | error s => rw [hsp] at hq; cases hq
    | ok sp =>
      rw [hsp] at hq
      dsimp only at hq
      by_cases h0 : (if single.amountOut < sp.amountOut then sp else single).amountOut = 0
      · rw [if_pos h0] at hq; cases hq
      · rw [if_neg h0] at hq
        cases hq
        exact Nat.pos_of_ne_zero h0

/-- C1 witness: a concrete cache-miss run on which the single surviving
route's zero quote is returned via the amended theorem's first branch. -/
theorem GetOptimalQuote_zeroOutput_guard_amended_witness :
    (GetOptimalQuote cfgE cexEnv st0 tIn "uion").1 = .ok { amountOut := 0, routes := [r1] } :=
  (GetOptimalQuote_zeroOutput_guard_amended cfgE cexEnv st0 tIn "uion" "/quote"
    cr1 (repoSetRoutes st0 "uosmo" "uion" cr1) ⟨0, [r1]⟩ [r1]
    rfl rfl rfl rfl (by decide)).1 (by decide)

/-- C2 counterexample: with RouteCacheEnabled = false, a cache-miss run of
GetOptimalQuote with non-empty filtered ranked routes still writes the
ranked-route cache, so the cache state changes. -/
theorem cacheDisabled_rankedCache_written_cex :
    cfgD.routeCacheEnabled = false
    ∧ (GetOptimalQuote cfgD cexEnv st0 tIn "uion").2 ≠ st0 :=
  ⟨rfl, by decide⟩

/-- GetOptimalQuote never touches the candidate-route repository when the
route cache is disabled. -/
theorem GetOptimalQuote_repoRoutes_frame (cfg : RouterConfig) (env : Env)
    (st : CacheState) (tokenIn : Coin) (tokenOutDenom : String)
    (hdis : cfg.routeCacheEnabled = false) :
    ((GetOptimalQuote cfg env st tokenIn tokenOutDenom).2).repoRoutes = st.repoRoutes := by
  have hframe : ∀ i o, (handleCandidateRoutes cfg env st i o).2 = st :=
    fun i o => handleCandidateRoutes_disabled_frame cfg env st i o hdis
  unfold GetOptimalQuote
  cases hu : env.GetURLPathFromContext with
  | error s => rfl
  | ok u =>
    dsimp only
    cases hc : cacheGet st (formatRankedRouteCacheKey tokenIn.denom tokenOutDenom
        (orderOfMagnitude tokenIn.amount)) with
    | some cr =>
      dsimp only
      cases hr : rankRoutesByDirectQuote cfg env cr tokenIn tokenOutDenom with
      | error e => rfl
      | ok pair =>
        cases pair with
        | mk single ranked =>
          dsimp only
          rw [finishQuote_state]
    | none =>
      dsimp only
      cases hh : handleCandidateRoutes cfg env st tokenIn.denom tokenOutDenom with
      | mk res st' =>
        have hst' : st' = st := by
          have := hframe tokenIn.denom tokenOutDenom
          rw [hh] at this
          exact this
        cases res with
        | error e => rw [hst']
        | ok cand =>
          dsimp only
          cases hr : rankRoutesByDirectQuote cfg env cand tokenIn tokenOutDenom with
          | error e => rw [hst']
          | ok pair =>
            cases pair with
            | mk single ranked =>
              dsimp only
              split
              · rw [hst']
              · split
                · rw [finishQuote_state, cacheSet_repoRoutes, hst']
                · rw [finishQuote_state, hst']

/-- C2 (amended): with RouteCacheEnabled = false, handleCandidateRoutes
leaves the entire cache state unchanged and GetOptimalQuote leaves the
candidate-route repository unchanged; the ranked-route cache, however, is
still written by GetOptimalQuote on a productive cache miss (see the
counterexample). -/
theorem cacheDisabled_frame_amended (cfg : RouterConfig) (env : Env) (st : CacheState)
    (tokenIn : Coin) (tokenInDenom tokenOutDenom : String)
    (hdis : cfg.routeCacheEnabled = false) :
    (handleCandidateRoutes cfg env st tokenInDenom tokenOutDenom).2 = st
    ∧ ((GetOptimalQuote cfg env st tokenIn tokenOutDenom).2).repoRoutes = st.repoRoutes :=
  ⟨handleCandidateRoutes_disabled_frame cfg env st tokenInDenom tokenOutDenom hdis,
   GetOptimalQuote_repoRoutes_frame cfg env st tokenIn tokenOutDenom hdis⟩

/-- C2 witness: the amended frame facts at a concrete disabled-cache run. -/
theorem cacheDisabled_frame_amended_witness :
    (handleCandidateRoutes cfgD cexEnv st0 "uosmo" "uion").2 = st0
    ∧ ((GetOptimalQuote cfgD cexEnv st0 tIn "uion").2).repoRoutes = st0.repoRoutes :=
  cacheDisabled_frame_amended cfgD cexEnv st0 tIn "uosmo" "uion" rfl

/-- C4 counterexample: with the route cache disabled,
GetCachedCandidateRoutes fails with the cache-disabled error rather than
returning an empty result without error. -/
theorem GetCachedCandidateRoutes_disabled_errors_cex :
    cfgD.routeCacheEnabled = false
    ∧ (GetCachedCandidateRoutes cfgD st0 "uosmo" "uion").1 = .error .cacheDisabled :=
  ⟨rfl, rfl⟩

/-- C4 (amended): with RouteCacheEnabled = false, GetCachedCandidateRoutes
fails with the cache-disabled error, performs no recomputation, and leaves
the route repository (indeed the whole cache state) unchanged. -/
theorem GetCachedCandidateRoutes_disabled_amended (cfg : RouterConfig) (st : CacheState)
    (tokenInDenom tokenOutDenom : String) (hdis : cfg.routeCacheEnabled = false) :
    GetCachedCandidateRoutes cfg st tokenInDenom tokenOutDenom = (.error .cacheDisabled, st) := by
  unfold GetCachedCandidateRoutes
  rw [if_pos (by simp [hdis])]

/-- C4 witness: the amended behavior at a concrete disabled configuration. -/
theorem GetCachedCandidateRoutes_disabled_amended_witness :
    GetCachedCandidateRoutes cfgD st0 "uosmo" "uion" = (.error .cacheDisabled, st0) :=
  GetCachedCandidateRoutes_disabled_amended cfgD st0 "uosmo" "uion" rfl

/-- C5: on a cache miss where at least two ranked routes survive the
overlap filter, GetOptimalQuote returns the better of the top single-route
quote and the split quote: the returned amount out is the maximum of the
two and in particular at least the top single-route amount out. -/
theorem GetOptimalQuote_better_of_single_and_split (cfg : RouterConfig) (env : Env)
    (st : CacheState) (tokenIn : Coin) (tokenOutDenom : String) (u : String)
    (cand : CandidateRoutes) (st' : CacheState) (single : Quote) (ranked : List RouteImpl)
    (sp : Quote)
    (hurl : env.GetURLPathFromContext = .ok u)
    (hmiss : cacheGet st (formatRankedRouteCacheKey tokenIn.denom tokenOutDenom
      (orderOfMagnitude tokenIn.amount)) = none)
    (hhandle : handleCandidateRoutes cfg env st tokenIn.denom tokenOutDenom = (.ok cand, st'))
    (hrank : rankRoutesByDirectQuote cfg env cand tokenIn tokenOutDenom = .ok (single, ranked))
    (hlen : 2 ≤ (filterDuplicatePoolIDRoutes ranked).length)
    (hsplit : env.GetSplitQuote (filterDuplicatePoolIDRoutes ranked) tokenIn = .ok sp)
    (hpos : max sp.amountOut single.amountOut ≠ 0) :
    (GetOptimalQuote cfg env st tokenIn tokenOutDenom).1 =
      .ok (if single.amountOut < sp.amountOut then sp else single)
    ∧ (if single.amountOut < sp.amountOut then sp else single).amountOut
        = max sp.amountOut single.amountOut
    ∧ single.amountOut ≤ (if single.amountOut < sp.amountOut then sp else single).amountOut := by
  have hne : ranked ≠ [] := by
    intro h
    rw [h] at hlen
    simp [filterDuplicatePoolIDRoutes, filterDuplicatePoolIDRoutesAux] at hlen
  have hmax : (if single.amountOut < sp.amountOut then sp else single).amountOut
      = max sp.amountOut single.amountOut := by
    split <;> omega
  refine ⟨?_, hmax, by split <;> omega⟩
  rw [GetOptimalQuote_miss_eq cfg env st tokenIn tokenOutDenom u cand st' single ranked
    hurl hmiss hhandle hrank hne]
  rw [finishQuote_multi _ _ _ _ _ _ (by omega) hsplit (by rw [hmax]; exact hpos)]

/-- C5 witness: a concrete two-route miss run where the split quote (7)
beats the top single-route quote (5). -/
theorem GetOptimalQuote_better_of_single_and_split_witness :
    (GetOptimalQuote cfgE cexEnv2 st0 tIn "uion").1 = .ok { amountOut := 7, routes := [r1, r2] } := by
  have h := GetOptimalQuote_better_of_single_and_split cfgE cexEnv2 st0 tIn "uion" "/quote"
    cr1 (repoSetRoutes st0 "uosmo" "uion" cr1) ⟨5, [r1]⟩ [r1, r2] ⟨7, [r1, r2]⟩
    rfl rfl rfl rfl (by decide) rfl (by decide)
  simpa using h.1

/-- C7: on a ranked-route cache miss with a non-empty overlap-filtered
result, GetOptimalQuote writes the filtered routes — converted back to
candidate routes — to the ranked-route cache under the key formed from
(tokenIn.denom, tokenOutDenom, order of magnitude of tokenIn.amount) with
a TTL of 5 minutes. -/
theorem GetOptimalQuote_writes_rankedRouteCache (cfg : RouterConfig) (env : Env)
    (st : CacheState) (tokenIn : Coin) (tokenOutDenom : String) (u : String)
    (cand : CandidateRoutes) (st' : CacheState) (single : Quote) (ranked : List RouteImpl)
    (hurl : env.GetURLPathFromContext = .ok u)
    (hmiss : cacheGet st (formatRankedRouteCacheKey tokenIn.denom tokenOutDenom
      (orderOfMagnitude tokenIn.amount)) = none)
    (hhandle : handleCandidateRoutes cfg env st tokenIn.denom tokenOutDenom = (.ok cand, st'))
    (hrank : rankRoutesByDirectQuote cfg env cand tokenIn tokenOutDenom = .ok (single, ranked))
    (hfne : filterDuplicatePoolIDRoutes ranked ≠ []) :
    (GetOptimalQuote cfg env st tokenIn tokenOutDenom).2 =
      cacheSet st'
        (formatRankedRouteCacheKey tokenIn.denom tokenOutDenom
          (orderOfMagnitude tokenIn.amount))
        (convertRankedToCandidateRoutes (filterDuplicatePoolIDRoutes ranked))
        (5 * timeMinute) := by
  have hne : ranked ≠ [] := by
    intro h
    rw [h] at hfne
    simp [filterDuplicatePoolIDRoutes, filterDuplicatePoolIDRoutesAux] at hfne
  rw [GetOptimalQuote_miss_eq cfg env st tokenIn tokenOutDenom u cand st' single ranked
    hurl hmiss hhandle hrank hne]
  rw [if_pos (List.length_pos.mpr hfne), finishQuote_state]

/-- C7 witness: a concrete miss run writing the converted filtered routes
under key "uosmo/uion/2" with a 5-minute TTL. -/
theorem GetOptimalQuote_writes_rankedRouteCache_witness :
    (GetOptimalQuote cfgE cexEnv2 st0 tIn "uion").2 =
      cacheSet (repoSetRoutes st0 "uosmo" "uion" cr1)
        (formatRankedRouteCacheKey "uosmo" "uion" (orderOfMagnitude 100))
        (convertRankedToCandidateRoutes (filterDuplicatePoolIDRoutes [r1, r2]))
        (5 * timeMinute) :=
  GetOptimalQuote_writes_rankedRouteCache cfgE cexEnv2 st0 tIn "uion" "/quote"
    cr1 (repoSetRoutes st0 "uosmo" "uion" cr1) ⟨5, [r1]⟩ [r1, r2]
    rfl rfl rfl rfl (by decide)

/-- C6: handleCandidateRoutes cache semantics — with the cache enabled and
a non-empty repository entry for the pair, exactly the cached routes are
returned and the state is untouched (the search result is irrelevant);
on a miss (empty cached routes or cache disabled) the computed routes are
returned and persisted iff non-empty and the cache is enabled. -/
theorem handleCandidateRoutes_cache_semantics (cfg : RouterConfig) (env : Env)
    (st : CacheState) (tokenInDenom tokenOutDenom : String) (u : String)
    (pools : List PoolI) (computed : CandidateRoutes)
    (hurl : env.GetURLPathFromContext = .ok u)
    (hpools : env.GetAllPools = .ok pools)
    (hsearch : env.GetCandidateRoutes pools tokenInDenom tokenOutDenom = .ok computed) :
    (cfg.routeCacheEnabled = true →
      (repoGetRoutes st tokenInDenom tokenOutDenom).Routes ≠ [] →
      handleCandidateRoutes cfg env st tokenInDenom tokenOutDenom =
        (.ok (repoGetRoutes st tokenInDenom tokenOutDenom), st))
    ∧ ((cfg.routeCacheEnabled = false ∨
        (repoGetRoutes st tokenInDenom tokenOutDenom).Routes = []) →
      handleCandidateRoutes cfg env st tokenInDenom tokenOutDenom =
        (.ok computed,
         if computed.Routes ≠ [] ∧ cfg.routeCacheEnabled = true then
           repoSetRoutes st tokenInDenom tokenOutDenom computed
         else st)) := by
  unfold handleCandidateRoutes
  rw [hurl]
  dsimp only
  constructor
  · intro hen hne
    rw [if_pos hen, if_neg (by simpa using hne)]
  · intro hmiss
    have hsel : (if cfg.routeCacheEnabled = true then
        repoGetRoutes st tokenInDenom tokenOutDenom else emptyCandidateRoutes).Routes = [] := by
      rcases hmiss with hdis | hempty
      · rw [hdis]
        simp [emptyCandidateRoutes]
      · split
        · exact hempty
        · simp [emptyCandidateRoutes]
    rw [if_pos (by simp [hsel])]
    rw [hpools]
    dsimp only
    rw [hsearch]
    dsimp only
    by_cases hP : computed.Routes ≠ [] ∧ cfg.routeCacheEnabled = true
    · rw [if_pos ⟨List.length_pos.mpr hP.1, hP.2⟩, if_pos hP]
    · rw [if_neg (fun hc => hP ⟨List.length_pos.mp hc.1, hc.2⟩), if_neg hP]

/-- C6 witness: with a pre-populated repository entry for (uosmo, uion),
the cached routes are returned and the state is untouched. -/
theorem handleCandidateRoutes_cache_semantics_witness :
    handleCandidateRoutes cfgE cexEnv stPre "uosmo" "uion" = (.ok cr1, stPre) :=
  (handleCandidateRoutes_cache_semantics cfgE cexEnv stPre "uosmo" "uion" "/quote"
    [] cr1 rfl rfl rfl).1 rfl (by decide)

/-! Helper lemmas about GetCustomQuote's matching loop. -/

theorem poolIDsMatch_iff (ps : List RoutablePool) (ds : List Nat) :
    poolIDsMatch ps ds = true ↔ ps ≠ [] ∧ ps.map RoutablePool.id = ds := by
  induction ps generalizing ds with
  | nil => cases ds <;> simp [poolIDsMatch]
  | cons p ps ih =>
    cases ds with
    | nil => cases ps <;> simp [poolIDsMatch]
    | cons d ds =>
      cases ps with
      | nil => cases ds <;> simp [poolIDsMatch]
      | cons p' ps' =>
        show (p.id == d && poolIDsMatch (p' :: ps') ds) = true ↔ _
        rw [Bool.and_eq_true, beq_iff_eq, ih ds]
        simp

theorem customMatch_iff (r : RouteImpl) (poolIDs : List Nat) :
    (r.Pools.length == poolIDs.length && poolIDsMatch r.Pools poolIDs) = true
      ↔ r.Pools ≠ [] ∧ routeIDs r = poolIDs := by
  rw [Bool.and_eq_true, beq_iff_eq, poolIDsMatch_iff]
  unfold routeIDs
  constructor
  · rintro ⟨-, h⟩
    exact h
  · rintro ⟨hne, hmap⟩
    exact ⟨by rw [← hmap, List.length_map], hne, hmap⟩

theorem findRouteIndexAux_none_iff (poolIDs : List Nat) (routes : List RouteImpl)
    (idx : Nat) (hne : ∀ r ∈ routes, r.Pools ≠ []) :
    findRouteIndexAux poolIDs routes idx = none ↔
      ∀ r ∈ routes, routeIDs r ≠ poolIDs := by
  induction routes generalizing idx with
  | nil => simp [findRouteIndexAux]
  | cons r rs ih =>
    unfold findRouteIndexAux
    by_cases hc : (r.Pools.length == poolIDs.length && poolIDsMatch r.Pools poolIDs) = true
    · rw [if_pos hc]
      have hmatch := (customMatch_iff r poolIDs).mp hc
      constructor
      · intro h
        exact absurd h (by simp)
      · intro hall
        exact absurd hmatch.2 (hall r (List.mem_cons_self r rs))
    · rw [if_neg hc]
      rw [ih (idx + 1) (fun r' hr' => hne r' (List.mem_cons_of_mem _ hr'))]
      have hrne : routeIDs r ≠ poolIDs := fun hmap =>
        hc ((customMatch_iff r poolIDs).mpr ⟨hne r (List.mem_cons_self r rs), hmap⟩)
      rw [List.forall_mem_cons]
      exact ⟨fun h => ⟨hrne, h⟩, fun h => h.2⟩

theorem findRouteIndexAux_first (poolIDs : List Nat) (pre : List RouteImpl)
    (r : RouteImpl) (post : List RouteImpl) (idx : Nat)
    (hpre : ∀ r' ∈ pre, routeIDs r' ≠ poolIDs)
    (hr : routeIDs r = poolIDs) (hrne : r.Pools ≠ []) :
    findRouteIndexAux poolIDs (pre ++ r :: post) idx = some (idx + pre.length) := by
  induction pre generalizing idx with
  | nil =>
    rw [List.nil_append]
    unfold findRouteIndexAux
    rw [if_pos ((customMatch_iff r poolIDs).mpr ⟨hrne, hr⟩)]
    simp
  | cons a pre ih =>
    rw [List.cons_append]
    unfold findRouteIndexAux
    have hane : routeIDs a ≠ poolIDs := hpre a (List.mem_cons_self a pre)
    rw [if_neg (fun hc => hane ((customMatch_iff a poolIDs).mp hc).2)]
    rw [ih (idx + 1) (fun r' hr' => hpre r' (List.mem_cons_of_mem _ hr'))]
    congr 1
    simp
    omega

/-- C8: GetCustomQuote fails with the noMatchingRoute error iff no bound
candidate route's ordered pool-id sequence equals poolIDs; when a match
exists, the quote of the first matching route is returned. -/
theorem GetCustomQuote_noMatchingRoute_spec (cfg : RouterConfig) (env : Env)
    (st : CacheState) (tokenIn : Coin) (tokenOutDenom : String) (poolIDs : List Nat)
    (cand : CandidateRoutes) (st' : CacheState) (fees : TakerFeeMap)
    (routes : List RouteImpl)
    (hhandle : handleCandidateRoutes cfg env st tokenIn.denom tokenOutDenom = (.ok cand, st'))
    (hfees : env.GetAllTakerFees = .ok fees)
    (hroutes : env.GetRoutesFromCandidates cand fees tokenIn.denom tokenOutDenom = .ok routes)
    (hne : ∀ r ∈ routes, r.Pools ≠ []) :
    ((GetCustomQuote cfg env st tokenIn tokenOutDenom poolIDs).1
        = .error (.noMatchingRoute poolIDs)
      ↔ ∀ r ∈ routes, routeIDs r ≠ poolIDs)
    ∧ (∀ pre r post q rest,
        routes = pre ++ r :: post →
        (∀ r' ∈ pre, routeIDs r' ≠ poolIDs) →
        routeIDs r = poolIDs →
        env.estimateAndRankSingleRouteQuote [r] tokenIn = .ok (q, rest) →
        (GetCustomQuote cfg env st tokenIn tokenOutDenom poolIDs).1 = .ok q) := by
  unfold GetCustomQuote
  rw [hhandle]
  dsimp only
  rw [hfees]
  dsimp only
  rw [hroutes]
  dsimp only
  constructor
  · cases hidx : findRouteIndexAux poolIDs routes 0 with
    | none =>
      dsimp only
      rw [iff_true_intro ((findRouteIndexAux_none_iff poolIDs routes 0 hne).mp hidx)]
      simp
    | some i =>
      dsimp only
      have hnall : ¬ ∀ r ∈ routes, routeIDs r ≠ poolIDs := fun hall => by
        rw [(findRouteIndexAux_none_iff poolIDs routes 0 hne).mpr hall] at hidx
        cases hidx
      apply iff_of_false ?_ hnall
      cases hg : routes[i]? with
      | none =>
        intro h
        simp at h
      | some fr =>
        dsimp only
        cases he : env.estimateAndRankSingleRouteQuote [fr] tokenIn with
        | error s =>
          intro h
          simp at h
        | ok pair =>
          cases pair with
          | mk q rest =>
            intro h
            simp at h
  · intro pre r post q rest hsplit hpre hr hest
    have hrne : r.Pools ≠ [] := by
      refine hne r ?_
      rw [hsplit]
      exact List.mem_append_right _ (List.mem_cons_self r post)
    have hidx : findRouteIndexAux poolIDs routes 0 = some pre.length := by
      rw [hsplit]
      have := findRouteIndexAux_first poolIDs pre r post 0 hpre hr hrne
      simpa using this
    rw [hidx]
    dsimp only
    have hget : routes[pre.length]? = some r := by
      rw [hsplit]
      rw [List.getElem?_append_right (Nat.le_refl pre.length)]
      simp
    rw [hget]
    dsimp only
    rw [hest]

/-- C8 witness: with one bound route through pool 1, asking for the
pool-id sequence [3] fails with noMatchingRoute, via the iff of the claim
theorem. -/
theorem GetCustomQuote_noMatchingRoute_spec_witness :
    (GetCustomQuote cfgE cexEnv st0 tIn "uion" [3]).1 = .error (.noMatchingRoute [3]) :=
  (GetCustomQuote_noMatchingRoute_spec cfgE cexEnv st0 tIn "uion" [3]
    cr1 (repoSetRoutes st0 "uosmo" "uion" cr1) ⟨[]⟩ [r1]
    rfl rfl rfl (by decide)).1.mpr (by decide)

/-- C10: every entry of the ranked-route cache after a GetOptimalQuote
call is either an entry that was already present or a CandidateRoutes
value whose routes are pairwise pool-disjoint (the overlap filter is
applied before conversion and caching). -/
theorem GetOptimalQuote_cached_routes_pool_disjoint (cfg : RouterConfig) (env : Env)
    (st : CacheState) (tokenIn : Coin) (tokenOutDenom : String)
    (res : Except RouterError Quote) (st₂ : CacheState)
    (h : GetOptimalQuote cfg env st tokenIn tokenOutDenom = (res, st₂)) :
    ∀ e ∈ st₂.rankedCache, e ∈ st.rankedCache ∨
      List.Pairwise (fun a b => ∀ x ∈ candidateRoutePoolIDs a, x ∉ candidateRoutePoolIDs b)
        e.2.1.Routes := by
  have hst₂ : st₂ = (GetOptimalQuote cfg env st tokenIn tokenOutDenom).2 := by rw [h]
  rw [hst₂]
  clear h hst₂
  unfold GetOptimalQuote
  cases hu : env.GetURLPathFromContext with
  | error s =>
    intro e he
    exact Or.inl he
  | ok u =>
    dsimp only
    cases hc : cacheGet st (formatRankedRouteCacheKey tokenIn.denom tokenOutDenom
        (orderOfMagnitude tokenIn.amount)) with
    | some cr =>
      dsimp only
      cases hr : rankRoutesByDirectQuote cfg env cr tokenIn tokenOutDenom with
      | error e =>
        intro e' he'
        exact Or.inl he'
      | ok pair =>
        cases pair with
        | mk single ranked =>
          dsimp only
          rw [finishQuote_state]
          intro e' he'
          exact Or.inl he'
    | none =>
      dsimp only
      cases hh : handleCandidateRoutes cfg env st tokenIn.denom tokenOutDenom with
      | mk rres st' =>
        have hrc : st'.rankedCache = st.rankedCache := by
          have := handleCandidateRoutes_rankedCache cfg env st tokenIn.denom tokenOutDenom
          rw [hh] at this
          exact this
        cases rres with
        | error e =>
          intro e' he'
          exact Or.inl (hrc ▸ he')
        | ok cand =>
          dsimp only
          cases hr : rankRoutesByDirectQuote cfg env cand tokenIn tokenOutDenom with
          | error e =>
            intro e' he'
            exact Or.inl (hrc ▸ he')
          | ok pair =>
            cases pair with
            | mk single ranked =>
              dsimp only
              split
              · intro e' he'
                exact Or.inl (hrc ▸ he')
              · split
                · rw [finishQuote_state]
                  simp only [cacheSet]
                  intro e' he'
                  rcases List.mem_cons.mp he' with he' | he'
                  · subst he'
                    exact Or.inr (convert_filter_pairwise ranked)
                  · exact Or.inl (hrc ▸ he')
                · rw [finishQuote_state]
                  intro e' he'
                  exact Or.inl (hrc ▸ he')

/-- C10 witness: the invariant instantiated at the one entry written by a
concrete run — since that entry is not in the initially empty cache, its
routes are pairwise pool-disjoint. -/
theorem GetOptimalQuote_cached_routes_pool_disjoint_witness :
    ("uosmo/uion/2",
      convertRankedToCandidateRoutes (filterDuplicatePoolIDRoutes [r1, r2]),
      5 * timeMinute) ∈ st0.rankedCache
    ∨ List.Pairwise (fun a b => ∀ x ∈ candidateRoutePoolIDs a, x ∉ candidateRoutePoolIDs b)
        (convertRankedToCandidateRoutes (filterDuplicatePoolIDRoutes [r1, r2])).Routes :=
  GetOptimalQuote_cached_routes_pool_disjoint cfgE cexEnv2 st0 tIn "uion"
    (GetOptimalQuote cfgE cexEnv2 st0 tIn "uion").1
    (GetOptimalQuote cfgE cexEnv2 st0 tIn "uion").2 rfl
    ("uosmo/uion/2",
      convertRankedToCandidateRoutes (filterDuplicatePoolIDRoutes [r1, r2]),
      5 * timeMinute)
    (by
      have he : ((GetOptimalQuote cfgE cexEnv2 st0 tIn "uion").2).rankedCache
          = [("uosmo/uion/2",
              convertRankedToCandidateRoutes (filterDuplicatePoolIDRoutes [r1, r2]),
              5 * timeMinute)] := by decide
      rw [he]
      exact List.mem_cons_self _ _)

end Osmosis
